import Mathlib

/-!
Verification of the sparse-register-tiling SpMM wrapper
(`src/spmm_spreg_wrapper.cpp`, `include/spmm_spreg_wrapper.h`).

Buffers of doubles are modelled as flat row-major lists over an arbitrary
commutative ring `α` (idealised exact arithmetic); `memset`/`memcpy` on
prefixes of buffers become prefix surgery on lists.  The external kernel
library (`MatMulSpecialized`, not part of this wrapper source) is modelled
from the spec as an executor that accumulates `C += A*B` into the padded
rows of its target.  Allocation success is an explicit parameter, and the
uninitialised contents of a freshly allocated scratch buffer are an
explicit parameter as well.
-/

/-- Micro-tile height for double precision AVX512; `static const int M_R = 4`. -/
def M_R : ℕ := 4

/-- A CSR sparse matrix as handed to `spmm_spreg_init`: values, column
indices and row pointers. -/
structure CSR (α : Type) where
  values : List α
  indices : List ℕ
  indptr : List ℕ
deriving DecidableEq

/-- The CSR preconditions stated by the spec for `create`:
`indptr` has length `M+1`, starts at `0`, is non-decreasing, ends at the
length of `values`; `indices` parallels `values` and stays below `K`. -/
def csrValid {α : Type} (A : CSR α) (M K : ℕ) : Bool :=
  (A.indptr.length == M + 1) &&
  (A.indptr.getD 0 0 == 0) &&
  (A.indptr.getD M 0 == A.values.length) &&
  (A.indices.length == A.values.length) &&
  ((A.indptr.zip A.indptr.tail).all fun q => decide (q.1 ≤ q.2)) &&
  (A.indices.all fun c => decide (c < K))

/-- Modelled from the spec: the `MatMulSpecialized` constructor (external
kernel library, not under the wrapper source) inspects and packs the CSR
matrix; any violation of the spec's CSR preconditions, or non-positive
dimensions, makes construction fail with a thrown error.  The packed
representation is identified with the CSR matrix itself. -/
def constructExecutor {α : Type} (A : CSR α) (M K N : ℕ) : Except Unit (CSR α) :=
  if csrValid A M K && decide (0 < M) && decide (0 < K) && decide (0 < N) then
    Except.ok A
  else
    Except.error ()

/-- `int M_padded = M + (M_R - M % M_R);` (line 93 of the wrapper). -/
def paddedRows (M : ℕ) : ℕ := M + (M_R - M % M_R)

/-- The wrapper's handle struct: executor (the packed matrix), the
dimensions, the padded row count, and the optional internal scratch
buffer (`double* internal_C`, `none` when not allocated). -/
structure SpregHandle (α : Type) where
  A : CSR α
  M : ℕ
  K : ℕ
  N : ℕ
  M_padded : ℕ
  internal_C : Option (List α)
deriving DecidableEq

/-- `memset(buf, 0, n * sizeof(double))`: the first `n` entries become `0`,
the rest of the buffer is untouched. -/
def memsetZero {α : Type} [CommRing α] (buf : List α) (n : ℕ) : List α :=
  List.replicate n 0 ++ buf.drop n

/-- `memcpy(dst, src, n * sizeof(double))`: the first `n` entries of `dst`
are replaced by the first `n` entries of `src`. -/
def copyFirst {α : Type} (dst src : List α) (n : ℕ) : List α :=
  src.take n ++ dst.drop n

/-- The dense inner product of row `i` of the CSR matrix with column `j` of
the row-major dense matrix `B` (width `N`): the sum over row `i`'s stored
nonzeros of `value * B[col][j]`. -/
def csrRowEntry {α : Type} [CommRing α] (A : CSR α) (i j : ℕ) (B : List α)
    (N : ℕ) : α :=
  let lo := A.indptr.getD i 0
  let hi := A.indptr.getD (i + 1) 0
  (((List.range (hi - lo)).map fun t =>
    A.values.getD (lo + t) 0 * B.getD (A.indices.getD (lo + t) 0 * N + j) 0).sum)

/-- The value the kernel adds at flat position `p` of its target: the
`A*B` entry for row `p / N`, column `p % N`, where the rows the library
padded in (row index `≥ M`) hold only zeros. -/
def kernelAddend {α : Type} [CommRing α] (A : CSR α) (M N : ℕ) (p : ℕ)
    (B : List α) : α :=
  if p / N < M then csrRowEntry A (p / N) (p % N) B N else 0

/-- Modelled from the spec: the executor invocation `(*h->matmul)(C_exec, B)`
(external kernel library, not under the wrapper source).  Per the spec it
accumulates `C += A*B` (beta accumulation) into the `M_padded` rows of its
target, the padded rows of `A` being all zero; entries of the target beyond
`M_padded * N` are untouched. -/
def kernelRun {α : Type} [CommRing α] (A : CSR α) (M Mp N : ℕ)
    (C B : List α) : List α :=
  ((List.range (Mp * N)).map fun p => C.getD p 0 + kernelAddend A M N p B) ++
    C.drop (Mp * N)

/-- `spmm_spreg_init`: build the executor (inspection/packing); compute
`M_padded`; if padding is needed, allocate the internal scratch buffer of
`M_padded * N` doubles (with uninitialised contents `g`), failing with a
null handle if the allocation fails (`alloc = false`), deleting the
just-built executor.  Any constructor error is caught and surfaced as a
null handle. -/
def spmm_spreg_init {α : Type} (alloc : Bool) (g : List α) (A : CSR α)
    (M K N : ℕ) : Option (SpregHandle α) :=
  match constructExecutor A M K N with
  | Except.error _ => none
  | Except.ok packed =>
    if paddedRows M ≠ M then
      if alloc then
        some ⟨packed, M, K, N, paddedRows M, some g⟩
      else
        none
    else
      some ⟨packed, M, K, N, paddedRows M, none⟩

/-- `double* C_exec = h->internal_C ? h->internal_C : C;` -/
def execTarget {α : Type} (h : SpregHandle α) (C : List α) : List α :=
  h.internal_C.getD C

/-- `int rows_to_zero = h->internal_C ? h->M_padded : h->M;` -/
def rowsToZero {α : Type} (h : SpregHandle α) : ℕ :=
  match h.internal_C with
  | some _ => h.M_padded
  | none => h.M

/-- `spmm_spreg_execute`: a null handle is a no-op; otherwise pick the
execution target, zero the rows written this call, run the kernel, and if
the scratch buffer was used copy its first `M * N` entries back into the
caller's buffer.  Returns the updated handle (the scratch contents mutate)
and the caller's buffer contents after the call. -/
def spmm_spreg_execute {α : Type} [CommRing α] (h? : Option (SpregHandle α))
    (C B : List α) : Option (SpregHandle α) × List α :=
  match h? with
  | none => (none, C)
  | some h =>
    let z := memsetZero (execTarget h C) (rowsToZero h * h.N)
    let r := kernelRun h.A h.M h.M_padded h.N z B
    match h.internal_C with
    | some _ => (some { h with internal_C := some r }, copyFirst C r (h.M * h.N))
    | none => (some h, r)

/-- `spmm_spreg_cleanup`: frees the scratch buffer and the executor;
null handle is a silent no-op.  Freeing has no caller-visible effect. -/
def spmm_spreg_cleanup {α : Type} (h? : Option (SpregHandle α)) : Unit :=
  match h? with
  | none => ()
  | some _ => ()

/-- `spmm_spreg` (run_once): `init`; if the handle is non-null, `execute`
then `cleanup`.  Returns the caller's output buffer contents. -/
def spmm_spreg {α : Type} [CommRing α] (alloc : Bool) (g : List α)
    (C : List α) (A : CSR α) (B : List α) (M K N : ℕ) : List α :=
  match spmm_spreg_init alloc g A M K N with
  | some hd =>
    let out := (spmm_spreg_execute (some hd) C B).2
    let _ := spmm_spreg_cleanup (some hd)
    out
  | none => C

/-! ### Concrete instances used to exercise the definitions -/

/-- A valid 1x1 CSR matrix with no nonzeros. -/
def exA : CSR ℤ := ⟨[], [], [0, 0]⟩

/-- An invalid CSR input: `indptr[M] = 1` but `values` has length `0`. -/
def exBad : CSR ℤ := ⟨[], [], [0, 1]⟩

/-- A valid 2x2 diagonal CSR matrix `diag(2, 3)`. -/
def exDiag : CSR ℤ := ⟨[2, 3], [0, 1], [0, 1, 2]⟩

/-- The handle created for `exA` with `M = K = N = 1` and an empty
uninitialised scratch allocation. -/
def exHA : SpregHandle ℤ := ⟨exA, 1, 1, 1, 4, some []⟩

/-- The handle created for `exDiag` with `M = K = N = 2` and an
uninitialised scratch allocation of `4 * 2` doubles. -/
def exHD : SpregHandle ℤ := ⟨exDiag, 2, 2, 2, 4, some (List.replicate 8 5)⟩

/-! ### Helper lemmas -/

theorem paddedRows_gt (M : ℕ) : M < paddedRows M := by
  have h4 : M % 4 < 4 := Nat.mod_lt _ (by norm_num)
  simp only [paddedRows, M_R]
  omega

theorem paddedRows_ne (M : ℕ) : paddedRows M ≠ M :=
  (paddedRows_gt M).ne'

theorem getD_append_lt {α : Type} (l₁ l₂ : List α) (n : ℕ) (hn : n < l₁.length)
    (d : α) : (l₁ ++ l₂).getD n d = l₁.getD n d := by
  simp [List.getD_eq_getElem?_getD, List.getElem?_append, hn]

theorem getD_append_ge {α : Type} (l₁ l₂ : List α) (n : ℕ) (hn : l₁.length ≤ n)
    (d : α) : (l₁ ++ l₂).getD n d = l₂.getD (n - l₁.length) d := by
  simp [List.getD_eq_getElem?_getD, List.getElem?_append_right hn]

theorem mapRange_getD {α : Type} (f : ℕ → α) (n p : ℕ) (hp : p < n) (d : α) :
    ((List.range n).map f).getD p d = f p := by
  simp [List.getD_eq_getElem?_getD, List.getElem?_map, List.getElem?_range hp]

theorem memsetZero_getD_lt {α : Type} [CommRing α] (buf : List α) (n p : ℕ)
    (hp : p < n) : (memsetZero buf n).getD p 0 = 0 := by
  unfold memsetZero
  rw [getD_append_lt _ _ _ (by simpa using hp)]
  simp [List.getD_eq_getElem?_getD, List.getElem?_replicate, hp]

theorem memsetZero_getD_ge {α : Type} [CommRing α] (buf : List α) (n p : ℕ)
    (hp : n ≤ p) (d : α) : (memsetZero buf n).getD p d = buf.getD p d := by
  unfold memsetZero
  rw [getD_append_ge _ _ _ (by simpa using hp)]
  simp only [List.length_replicate]
  rw [List.getD_eq_getElem?_getD, List.getElem?_drop, ← List.getD_eq_getElem?_getD]
  congr 1
  omega

theorem rowcol_lt {M N i j : ℕ} (hi : i < M) (hj : j < N) :
    i * N + j < M * N := by
  calc i * N + j < i * N + N := by omega
  _ = (i + 1) * N := by ring
  _ ≤ M * N := Nat.mul_le_mul_right N hi

theorem constructExecutor_ok {α : Type} {A p : CSR α} {M K N : ℕ}
    (hce : constructExecutor A M K N = Except.ok p) : p = A := by
  unfold constructExecutor at hce
  split at hce
  · cases hce; rfl
  · cases hce

theorem init_some_inv {α : Type} {alloc : Bool} {g : List α} {A : CSR α}
    {M K N : ℕ} {h : SpregHandle α}
    (hinit : spmm_spreg_init alloc g A M K N = some h) :
    h = ⟨A, M, K, N, paddedRows M, some g⟩ ∧ alloc = true ∧
      constructExecutor A M K N = Except.ok A := by
  unfold spmm_spreg_init at hinit
  split at hinit
  · cases hinit
  next packed hce =>
    rw [if_pos (paddedRows_ne M)] at hinit
    have hpk : packed = A := constructExecutor_ok hce
    subst hpk
    cases alloc with
    | false => simp at hinit
    | true =>
      rw [if_pos rfl] at hinit
      exact ⟨(Option.some.inj hinit).symm, rfl, hce⟩

theorem kernelAddend_at {α : Type} [CommRing α] (A : CSR α) (M N i j : ℕ)
    (B : List α) (hi : i < M) (hj : j < N) :
    kernelAddend A M N (i * N + j) B = csrRowEntry A i j B N := by
  have hN : 0 < N := lt_of_le_of_lt (Nat.zero_le j) hj
  have hdiv : (i * N + j) / N = i := by
    rw [mul_comm, Nat.mul_add_div hN, Nat.div_eq_of_lt hj, add_zero]
  have hmod : (i * N + j) % N = j := by
    rw [mul_comm, Nat.mul_add_mod, Nat.mod_eq_of_lt hj]
  unfold kernelAddend
  rw [hdiv, hmod, if_pos hi]

theorem execute_scratch_eq {α : Type} [CommRing α] (h : SpregHandle α)
    (s : List α) (hs : h.internal_C = some s) (C B : List α)
    (hle : h.M ≤ h.M_padded) :
    spmm_spreg_execute (some h) C B =
      (some { h with internal_C := some (kernelRun h.A h.M h.M_padded h.N
                (memsetZero s (h.M_padded * h.N)) B) },
       ((List.range (h.M * h.N)).map fun p => kernelAddend h.A h.M h.N p B) ++
         C.drop (h.M * h.N)) := by
  have hmn : h.M * h.N ≤ h.M_padded * h.N := Nat.mul_le_mul_right _ hle
  have htar : execTarget h C = s := by simp [execTarget, hs]
  have hrz : rowsToZero h = h.M_padded := by simp [rowsToZero, hs]
  simp only [spmm_spreg_execute, hs, htar, hrz]
  refine Prod.ext rfl ?_
  show copyFirst C (kernelRun h.A h.M h.M_padded h.N
      (memsetZero s (h.M_padded * h.N)) B) (h.M * h.N) = _
  unfold copyFirst kernelRun
  congr 1
  rw [List.take_append_of_le_length (by simpa using hmn)]
  rw [← List.map_take, List.take_range, Nat.min_eq_left hmn]
  apply List.map_congr_left
  intro p hp
  rw [memsetZero_getD_lt _ _ _ (lt_of_lt_of_le (List.mem_range.mp hp) hmn),
    zero_add]

theorem getD_drop {α : Type} (l : List α) (n m : ℕ) (d : α) :
    (l.drop n).getD m d = l.getD (n + m) d := by
  simp [List.getD_eq_getElem?_getD, List.getElem?_drop]

theorem drop_len_append {α : Type} (l₁ l₂ : List α) (n : ℕ)
    (h : l₁.length = n) : (l₁ ++ l₂).drop n = l₂ := by
  subst h
  exact List.drop_left _ _

/-! ### Claims -/

/-- C2: for every declared row count `M > 0`, the padded row count computed
at create time equals `M + (4 - M mod 4)` and is strictly greater than `M`,
also when `M` is already a multiple of 4. -/
theorem c2_padded_row_count (M : ℕ) (hM : 0 < M) :
    paddedRows M = M + (4 - M % 4) ∧ M < paddedRows M :=
  ⟨rfl, paddedRows_gt M⟩

theorem c2_witness : paddedRows 8 = 8 + (4 - 8 % 4) ∧ 8 < paddedRows 8 :=
  c2_padded_row_count 8 (by decide)

/-- C6: executing with a null handle returns the caller's buffer unmodified
and is a no-op, and cleanup of a null handle is a silent no-op; neither
call crashes (both are total functions). -/
theorem c6_null_handle_noop {α : Type} [CommRing α] (C B : List α) :
    spmm_spreg_execute (none : Option (SpregHandle α)) C B = (none, C) ∧
      spmm_spreg_cleanup (none : Option (SpregHandle α)) = () :=
  ⟨rfl, rfl⟩

/-- C7: when the kernel executor is constructed successfully but the scratch
buffer allocation fails, create returns a null handle (the executor having
been released); the caller never sees a partially constructed handle. -/
theorem c7_alloc_failure_returns_null {α : Type} (g : List α) (A : CSR α)
    (M K N : ℕ) (p : CSR α)
    (hce : constructExecutor A M K N = Except.ok p) :
    spmm_spreg_init false g A M K N = none := by
  unfold spmm_spreg_init
  simp only [hce]
  rw [if_pos (paddedRows_ne M)]
  rfl

theorem c7_witness : spmm_spreg_init false ([] : List ℤ) exA 1 1 1 = none :=
  c7_alloc_failure_returns_null [] exA 1 1 1 exA rfl

/-- C8: CSR arguments with `rowPtr[M]` different from the length of the
values array make executor construction fail, and any construction error is
caught by create and surfaced as a null handle. -/
theorem c8_construction_failure_returns_null {α : Type} (alloc : Bool)
    (g : List α) (A : CSR α) (M K N : ℕ) :
    (A.indptr.getD M 0 ≠ A.values.length →
      constructExecutor A M K N = Except.error ()) ∧
    (∀ e : Unit, constructExecutor A M K N = Except.error e →
      spmm_spreg_init alloc g A M K N = none) := by
  constructor
  · intro hne
    have hv : csrValid A M K = false := by
      cases hcv : csrValid A M K
      · rfl
      · exfalso
        unfold csrValid at hcv
        simp only [Bool.and_eq_true, beq_iff_eq] at hcv
        exact hne hcv.1.1.1.2
    unfold constructExecutor
    simp [hv]
  · intro e hce
    unfold spmm_spreg_init
    simp only [hce]

theorem c8_witness : spmm_spreg_init true ([] : List ℤ) exBad 1 1 1 = none :=
  (c8_construction_failure_returns_null true [] exBad 1 1 1).2 ()
    ((c8_construction_failure_returns_null true [] exBad 1 1 1).1 (by decide))

/-- C9: the fused call `spmm_spreg` has exactly the effect on the caller's
buffer of create followed by execute on the resulting handle followed by
destroy; in particular when create yields a null handle the buffer is left
unmodified. -/
theorem c9_run_once_refines {α : Type} [CommRing α] (alloc : Bool)
    (g C : List α) (A : CSR α) (B : List α) (M K N : ℕ) :
    spmm_spreg alloc g C A B M K N =
      (spmm_spreg_execute (spmm_spreg_init alloc g A M K N) C B).2 ∧
    (spmm_spreg_init alloc g A M K N = none →
      spmm_spreg alloc g C A B M K N = C) := by
  cases hini : spmm_spreg_init alloc g A M K N with
  | none =>
    unfold spmm_spreg
    rw [hini]
    exact ⟨rfl, fun _ => rfl⟩
  | some hd =>
    unfold spmm_spreg
    rw [hini]
    exact ⟨rfl, fun hc => Option.noConfusion hc⟩

theorem c9_witness : spmm_spreg true ([] : List ℤ) [1, 2] exBad [] 1 1 1 = [1, 2] :=
  (c9_run_once_refines true [] [1, 2] exBad [] 1 1 1).2 (by decide)

/-- C10: every handle returned by a successful create owns a scratch buffer
(the padded row count strictly exceeds `M`, so the no-scratch configuration
is unreachable), and every execute call on such a handle goes through the
scratch buffer and copies back exactly `M * N` entries. -/
theorem c10_scratch_always_present {α : Type} [CommRing α] (alloc : Bool)
    (g : List α) (A : CSR α) (M K N : ℕ) (h : SpregHandle α)
    (hinit : spmm_spreg_init alloc g A M K N = some h) :
    h.internal_C = some g ∧ h.M < h.M_padded ∧
      ∀ C B : List α, ∃ r : List α,
        spmm_spreg_execute (some h) C B =
          (some { h with internal_C := some r }, copyFirst C r (h.M * h.N)) := by
  obtain ⟨hh, -, -⟩ := init_some_inv hinit
  subst hh
  refine ⟨rfl, paddedRows_gt M, ?_⟩
  intro C B
  exact ⟨_, rfl⟩

theorem c10_witness :
    exHA.internal_C = some ([] : List ℤ) ∧ exHA.M < exHA.M_padded ∧
      ∀ C B : List ℤ, ∃ r : List ℤ,
        spmm_spreg_execute (some exHA) C B =
          (some { exHA with internal_C := some r },
           copyFirst C r (exHA.M * exHA.N)) :=
  c10_scratch_always_present true [] exA 1 1 1 exHA (by decide)

/-- C1: after execute on a handle from a successful create with dimensions
`M`, `K`, `N`, with `B` of at least `K * N` entries and `C` of at least
`M * N` entries, every entry of the first `M` rows of the caller's buffer
equals the corresponding entry of `A * B`: the sum over row `i`'s stored
nonzeros of `value * B[col][j]`. -/
theorem c1_execute_computes_product {α : Type} [CommRing α] (alloc : Bool)
    (g : List α) (A : CSR α) (M K N : ℕ) (h : SpregHandle α)
    (hinit : spmm_spreg_init alloc g A M K N = some h) (C B : List α)
    (hB : K * N ≤ B.length) (hC : M * N ≤ C.length) (i j : ℕ)
    (hi : i < M) (hj : j < N) :
    ((spmm_spreg_execute (some h) C B).2).getD (i * N + j) 0 =
      csrRowEntry A i j B N := by
  obtain ⟨hh, -, -⟩ := init_some_inv hinit
  subst hh
  rw [execute_scratch_eq _ g rfl C B (le_of_lt (paddedRows_gt M))]
  show (((List.range (M * N)).map fun p => kernelAddend A M N p B) ++
      C.drop (M * N)).getD (i * N + j) 0 = _
  have hlt : i * N + j < M * N := rowcol_lt hi hj
  rw [getD_append_lt _ _ _ (by simpa using hlt), mapRange_getD _ _ _ hlt,
    kernelAddend_at A M N i j B hi hj]

theorem c1_witness :
    ((spmm_spreg_execute (some exHD) [9, 9, 9, 9, 9] [1, 0, 0, 1]).2).getD
        (1 * 2 + 1) 0 = csrRowEntry exDiag 1 1 [1, 0, 0, 1] 2 :=
  c1_execute_computes_product true (List.replicate 8 5) exDiag 2 2 2 exHD
    (by decide) [9, 9, 9, 9, 9] [1, 0, 0, 1] (by decide) (by decide) 1 1
    (by decide) (by decide)

/-- C3: inside execute the target (scratch buffer when present, otherwise
the caller's buffer) is zeroed on exactly the rows written this call
(`M_padded` rows with scratch, else `M` rows) — entries below the zeroed
range become `0`, entries above it keep their prior values — and the result
of execute is the kernel run on that zeroed target (with the copy back of
`M * N` entries when scratch is used), so stale target contents cannot
reach the accumulating kernel. -/
theorem c3_zero_before_kernel {α : Type} [CommRing α] (h : SpregHandle α)
    (C B : List α) :
    (∀ p, p < rowsToZero h * h.N →
      (memsetZero (execTarget h C) (rowsToZero h * h.N)).getD p 0 = 0) ∧
    (∀ p d, rowsToZero h * h.N ≤ p →
      (memsetZero (execTarget h C) (rowsToZero h * h.N)).getD p d =
        (execTarget h C).getD p d) ∧
    (∀ s, h.internal_C = some s →
      execTarget h C = s ∧ rowsToZero h = h.M_padded) ∧
    (h.internal_C = none → execTarget h C = C ∧ rowsToZero h = h.M) ∧
    spmm_spreg_execute (some h) C B =
      (let r := kernelRun h.A h.M h.M_padded h.N
          (memsetZero (execTarget h C) (rowsToZero h * h.N)) B
       match h.internal_C with
       | some _ =>
         (some { h with internal_C := some r }, copyFirst C r (h.M * h.N))
       | none => (some h, r)) :=
  ⟨fun p hp => memsetZero_getD_lt _ _ _ hp,
   fun p d hp => memsetZero_getD_ge _ _ _ hp d,
   fun s hs => ⟨by simp [execTarget, hs], by simp [rowsToZero, hs]⟩,
   fun hn => ⟨by simp [execTarget, hn], by simp [rowsToZero, hn]⟩,
   rfl⟩

theorem c3_witness :
    (memsetZero (execTarget exHA ([7] : List ℤ))
        (rowsToZero exHA * exHA.N)).getD 0 0 = 0 ∧
      execTarget exHA ([7] : List ℤ) = [] ∧
      rowsToZero exHA = exHA.M_padded := by
  obtain ⟨h1, h2, h3, h4, h5⟩ := c3_zero_before_kernel exHA ([7] : List ℤ) []
  exact ⟨h1 0 (by decide), (h3 [] rfl).1, (h3 [] rfl).2⟩

/-- C4: execute leaves every entry of the caller's buffer at flat index
`≥ M * N` (that is, every row of index `≥ M`) unchanged: only the first
`M * N` entries are copied back from the scratch buffer, and the padded
rows of the scratch buffer never reach the caller. -/
theorem c4_rows_beyond_M_untouched {α : Type} [CommRing α] (alloc : Bool)
    (g : List α) (A : CSR α) (M K N : ℕ) (h : SpregHandle α)
    (hinit : spmm_spreg_init alloc g A M K N = some h) (C B : List α)
    (p : ℕ) (hp : M * N ≤ p) (d : α) :
    ((spmm_spreg_execute (some h) C B).2).getD p d = C.getD p d := by
  obtain ⟨hh, -, -⟩ := init_some_inv hinit
  subst hh
  rw [execute_scratch_eq _ g rfl C B (le_of_lt (paddedRows_gt M))]
  show (((List.range (M * N)).map fun q => kernelAddend A M N q B) ++
      C.drop (M * N)).getD p d = _
  rw [getD_append_ge _ _ _ (by simpa using hp)]
  simp only [List.length_map, List.length_range]
  rw [getD_drop]
  congr 1
  omega

theorem c4_witness :
    ((spmm_spreg_execute (some exHD) [9, 9, 9, 9, 9] [1, 0, 0, 1]).2).getD
        4 37 = ([9, 9, 9, 9, 9] : List ℤ).getD 4 37 :=
  c4_rows_beyond_M_untouched true (List.replicate 8 5) exDiag 2 2 2 exHD
    (by decide) [9, 9, 9, 9, 9] [1, 0, 0, 1] 4 (by decide) 37

/-- C5: two successive execute calls with the same `B` on the same handle
write identical contents into the caller's buffer both times; the first
call's result does not accumulate into the second call's result. -/
theorem c5_execute_idempotent {α : Type} [CommRing α] (alloc : Bool)
    (g : List α) (A : CSR α) (M K N : ℕ) (h : SpregHandle α)
    (hinit : spmm_spreg_init alloc g A M K N = some h) (C B : List α) :
    (spmm_spreg_execute (spmm_spreg_execute (some h) C B).1
        (spmm_spreg_execute (some h) C B).2 B).2 =
      (spmm_spreg_execute (some h) C B).2 := by
  obtain ⟨hh, -, -⟩ := init_some_inv hinit
  subst hh
  have hle : M ≤ paddedRows M := le_of_lt (paddedRows_gt M)
  rw [execute_scratch_eq (⟨A, M, K, N, paddedRows M, some g⟩ : SpregHandle α)
    g rfl C B hle]
  dsimp only
  rw [execute_scratch_eq _ _ rfl _ B hle]
  dsimp only
  congr 1
  exact drop_len_append _ _ _ (by simp)

theorem c5_witness :
    (spmm_spreg_execute (spmm_spreg_execute (some exHD) [9, 9, 9, 9, 9]
          [1, 0, 0, 1]).1
        (spmm_spreg_execute (some exHD) [9, 9, 9, 9, 9] [1, 0, 0, 1]).2
        [1, 0, 0, 1]).2 =
      (spmm_spreg_execute (some exHD) [9, 9, 9, 9, 9] [1, 0, 0, 1]).2 :=
  c5_execute_idempotent true (List.replicate 8 5) exDiag 2 2 2 exHD
    (by decide) [9, 9, 9, 9, 9] [1, 0, 0, 1]
